import Mathlib

/-!
Verification of the zenith.js static-site pipeline: route derivation,
request-time resolution, emission, script assembly, event-attribute
rewriting, source parsing and the generated event delegate.

JavaScript strings are embedded as `List Char` (`Str`); the file system is
embedded as an association list from paths to file contents where the most
recent write shadows earlier ones.
-/

namespace Zenith

/-- JS strings are modelled as lists of characters. -/
abbrev Str := List Char

/-- Coerce a Lean string literal into the `Str` model. -/
def str (s : String) : Str := s.data

/-- One newline, as written `\n` in the TS template literals. -/
def nl : Str := str "\n"

/-- Two newlines, as written `\n\n` in the TS template literals. -/
def nl2 : Str := str "\n\n"

/-- JS `String.prototype.toLowerCase` (per code unit). -/
def strToLower (s : Str) : Str := s.map Char.toLower

/-- JS `s.startsWith(p)`. -/
def startsWith (s p : Str) : Bool := p.isPrefixOf s

/-- JS `s.endsWith(p)`. -/
def endsWith (s p : Str) : Bool := p.isSuffixOf s

/-- JS `s.slice(0, -n)` for `n ≤ s.length`: drop the last `n` characters. -/
def dropRight (s : Str) (n : Nat) : Str := s.take (s.length - n)

/-! ### Route derivation (`filePathToRoute`, design doc part_000, build.ts fix) -/

/-- `relative.replace(/\.zen$/, "")`: strip a trailing `.zen` extension. -/
def routeWithoutExt (relative : Str) : Str :=
  if endsWith relative (str ".zen") then dropRight relative 4 else relative

/-- `filePathToRoute` from the design document's `build.ts`: the argument is
`path.relative(pagesDir, filePath)` with `/` separators. -/
def filePathToRoute (relative : Str) : Str :=
  let withoutExt := routeWithoutExt relative
  if withoutExt = str "index" then str "/"
  else if endsWith withoutExt (str "/index") then str "/" ++ dropRight withoutExt 6
  else str "/" ++ withoutExt

/-! ### Helper lemmas about suffixes and `dropRight` -/

theorem isSuffixOf_append (a b : Str) : (a ++ b).isSuffixOf b = false ∨ b.isSuffixOf (a ++ b) = true := by
  right
  rw [List.isSuffixOf_iff_suffix]
  exact ⟨a, rfl⟩

theorem endsWith_append (a b : Str) : endsWith (a ++ b) b = true := by
  unfold endsWith
  rw [List.isSuffixOf_iff_suffix]
  exact ⟨a, rfl⟩

theorem dropRight_append (a b : Str) : dropRight (a ++ b) b.length = a := by
  unfold dropRight
  rw [List.length_append, Nat.add_sub_cancel]
  exact List.take_left a b

theorem append_slashIndex_ne_index (pre : Str) : pre ++ str "/index" ≠ str "index" := by
  intro hco
  have hlen := congrArg List.length hco
  rw [List.length_append] at hlen
  have h6 : (str "/index").length = 6 := by decide
  have h5 : (str "index").length = 5 := by decide
  omega

/-- C3: route derivation. Stripping the `.zen` extension from the path relative
to the pages root: exactly `index` maps to `/`; a path ending in `/index` maps
to `/` plus the prefix before that suffix; any other path maps to `/` plus the
path; and the four literal examples from the spec's route table. -/
theorem filePathToRoute_correct :
    (∀ rel, routeWithoutExt rel = str "index" → filePathToRoute rel = str "/")
  ∧ (∀ rel pre, routeWithoutExt rel = pre ++ str "/index" →
      filePathToRoute rel = str "/" ++ pre)
  ∧ (∀ rel, routeWithoutExt rel ≠ str "index" →
      endsWith (routeWithoutExt rel) (str "/index") = false →
      filePathToRoute rel = str "/" ++ routeWithoutExt rel)
  ∧ filePathToRoute (str "index.zen") = str "/"
  ∧ filePathToRoute (str "about.zen") = str "/about"
  ∧ filePathToRoute (str "blog/index.zen") = str "/blog"
  ∧ filePathToRoute (str "blog/post.zen") = str "/blog/post" := by
  refine ⟨?_, ?_, ?_, by decide, by decide, by decide, by decide⟩
  · intro rel h
    simp only [filePathToRoute]
    rw [h]
    simp
  · intro rel pre h
    simp only [filePathToRoute]
    rw [h, if_neg (append_slashIndex_ne_index pre)]
    have hends : endsWith (pre ++ str "/index") (str "/index") = true :=
      endsWith_append pre (str "/index")
    rw [hends]
    have hdrop := dropRight_append pre (str "/index")
    have h6 : (str "/index").length = 6 := by decide
    rw [h6] at hdrop
    rw [if_pos rfl, hdrop]
  · intro rel h1 h2
    simp only [filePathToRoute]
    rw [if_neg h1, h2]
    simp

/-- Witness for C3 at the concrete relative path `docs/index.zen`. -/
theorem filePathToRoute_correct_witness :
    filePathToRoute (str "docs/index.zen") = str "/" ++ str "docs" :=
  filePathToRoute_correct.2.1 (str "docs/index.zen") (str "docs") (by decide)

/-! ### Request-time route resolver (design doc part_000, serve.ts fix) -/

/-- The output root hard-coded in the dev server (`./playground/dist`). -/
def distRoot : Str := str "./playground/dist"

/-- `url.pathname.match(/\.(js|css|ico|png|jpg|svg)$/)`: the pathname ends in
one of the static-asset extensions. -/
def isStaticAsset (pathname : Str) : Bool :=
  endsWith pathname (str ".js") || endsWith pathname (str ".css") ||
  endsWith pathname (str ".ico") || endsWith pathname (str ".png") ||
  endsWith pathname (str ".jpg") || endsWith pathname (str ".svg")

/-- The serve-time resolver from the design document's `serve.ts`.
`ex` models `fs.existsSync` over the output tree at request time. -/
def resolve (pathname : Str) (ex : Str → Bool) : Str :=
  if isStaticAsset pathname then distRoot ++ pathname
  else if pathname = str "/" then distRoot ++ str "/index.html"
  else
    let htmlPath := distRoot ++ pathname ++ str ".html"
    if ex htmlPath then htmlPath
    else
      let indexPath := distRoot ++ pathname ++ str "/index.html"
      if ex indexPath then indexPath
      else distRoot ++ str "/index.html"

/-- C4: resolver precedence and total fallback. In order: static-asset
extension maps directly under the output root; `/` maps to `index.html`;
`<pathname>.html` when it exists (regardless of whether
`<pathname>/index.html` also exists); `<pathname>/index.html` when it exists;
otherwise the root `index.html`. On a non-asset pathname the result is always
one of the three HTML candidates, so the resolver is total and never raises. -/
theorem resolve_correct :
    (∀ p ex, isStaticAsset p = true → resolve p ex = distRoot ++ p)
  ∧ (∀ ex, resolve (str "/") ex = distRoot ++ str "/index.html")
  ∧ (∀ p ex, isStaticAsset p = false → p ≠ str "/" →
      ex (distRoot ++ p ++ str ".html") = true →
      resolve p ex = distRoot ++ p ++ str ".html")
  ∧ (∀ p ex, isStaticAsset p = false → p ≠ str "/" →
      ex (distRoot ++ p ++ str ".html") = false →
      ex (distRoot ++ p ++ str "/index.html") = true →
      resolve p ex = distRoot ++ p ++ str "/index.html")
  ∧ (∀ p ex, isStaticAsset p = false → p ≠ str "/" →
      ex (distRoot ++ p ++ str ".html") = false →
      ex (distRoot ++ p ++ str "/index.html") = false →
      resolve p ex = distRoot ++ str "/index.html")
  ∧ (∀ p ex, isStaticAsset p = false →
      resolve p ex = distRoot ++ str "/index.html" ∨
      resolve p ex = distRoot ++ p ++ str ".html" ∨
      resolve p ex = distRoot ++ p ++ str "/index.html") := by
  refine ⟨?_, ?_, ?_, ?_, ?_, ?_⟩
  · intro p ex h
    simp [resolve, h]
  · intro ex
    have h : isStaticAsset (str "/") = false := by decide
    simp [resolve, h]
  · intro p ex h1 h2 h3
    rw [List.append_assoc] at h3
    simp [resolve, h1, h2, h3]
  · intro p ex h1 h2 h3 h4
    rw [List.append_assoc] at h3 h4
    simp [resolve, h1, h2, h3, h4]
  · intro p ex h1 h2 h3 h4
    rw [List.append_assoc] at h3 h4
    simp [resolve, h1, h2, h3, h4]
  · intro p ex h1
    simp only [resolve, h1, Bool.false_eq_true, if_false]
    by_cases h2 : p = str "/"
    · rw [if_pos h2]
      left
      rfl
    · rw [if_neg h2]
      by_cases h3 : ex (distRoot ++ p ++ str ".html") = true
      · rw [if_pos h3]
        right
        left
        rfl
      · rw [if_neg h3]
        by_cases h4 : ex (distRoot ++ p ++ str "/index.html") = true
        · rw [if_pos h4]
          right
          right
          rfl
        · rw [if_neg h4]
          left
          rfl

/-- Witness for C4: `/about` with both `about.html` and `about/index.html`
present in the output tree resolves to `about.html`. -/
theorem resolve_correct_witness :
    resolve (str "/about")
      (fun q => decide (q = distRoot ++ str "/about" ++ str ".html") ||
        decide (q = distRoot ++ str "/about" ++ str "/index.html")) =
      distRoot ++ str "/about" ++ str ".html" :=
  resolve_correct.2.2.1 (str "/about") _ (by decide) (by decide) (by decide)

/-! ### Generic helpers for JS `Array.prototype.map((x, index) => ...)` -/

/-- `map` with the element index, starting the count at `start`. -/
def mapWithIndexFrom (f : Nat → α → β) : Nat → List α → List β
  | _, [] => []
  | i, x :: xs => f i x :: mapWithIndexFrom f (i + 1) xs

/-- JS `array.map((x, index) => f(index, x))`. -/
def mapWithIndex (f : Nat → α → β) (l : List α) : List β :=
  mapWithIndexFrom f 0 l

theorem mapWithIndexFrom_get? (f : Nat → α → β) :
    ∀ (l : List α) (start i : Nat),
      (mapWithIndexFrom f start l).get? i = (l.get? i).map (f (start + i)) := by
  intro l
  induction l with
  | nil => intro start i; cases i <;> rfl
  | cons x xs ih =>
    intro start i
    cases i with
    | zero => rfl
    | succ j =>
      simp only [mapWithIndexFrom, List.get?_cons_succ]
      rw [ih (start + 1) j]
      have hidx : start + 1 + j = start + (j + 1) := by omega
      rw [hidx]

theorem mapWithIndex_get? (f : Nat → α → β) (l : List α) (i : Nat) :
    (mapWithIndex f l).get? i = (l.get? i).map (f i) := by
  rw [mapWithIndex, mapWithIndexFrom_get?, Nat.zero_add]

/-! ### JS string search and first-occurrence replacement -/

/-- JS `s.includes(sub)`. -/
def includesStr : Str → Str → Bool
  | [], sub => sub.isPrefixOf []
  | c :: rest, sub =>
    if sub.isPrefixOf (c :: rest) then true else includesStr rest sub

/-- JS `s.replace(pat, repl)` with a plain-string pattern: replace the first
occurrence of `pat`, or return `s` unchanged when there is none. -/
def replaceFirst : Str → Str → Str → Str
  | [], pat, repl => if pat.isPrefixOf [] then repl ++ List.drop pat.length [] else []
  | c :: rest, pat, repl =>
    if pat.isPrefixOf (c :: rest) then repl ++ List.drop pat.length (c :: rest)
    else c :: replaceFirst rest pat repl

/-- JS number-to-string for the asset indices. -/
def natToStr (n : Nat) : Str := (Nat.repr n).data

/-! ### File-system model

A file system is an association list from paths to file contents; the most
recent `writeFileSync` is consed to the front and shadows older entries.
Directories are implicit (`mkdirSync` is a no-op in this model). -/

/-- Path-to-contents association list; newest write first. -/
abbrev FS := List (Str × Str)

/-- `fs.writeFileSync(p, content)`. -/
def fsWrite (fs : FS) (p content : Str) : FS := (p, content) :: fs

/-- Contents of the file at `p`, if any. -/
def fsLookup (fs : FS) (p : Str) : Option Str :=
  match fs with
  | [] => none
  | (q, c) :: rest => if q = p then some c else fsLookup rest p

/-- `fs.existsSync(p)` over the model. -/
def fsExists (fs : FS) (p : Str) : Bool := (fsLookup fs p).isSome

/-- POSIX `path.join(a, b)` for the simple segment arguments used here. -/
def pjoin (a b : Str) : Str := a ++ str "/" ++ b

/-- `fs.rmSync(dir, { recursive: true, force: true })`: delete `dir` and
everything under it. -/
def rmrf (dir : Str) (fs : FS) : FS :=
  fs.filter (fun e => !(e.1 == dir || (dir ++ str "/").isPrefixOf e.1))

/-! ### `emit` (src/compiler/emit.ts) -/

/-- `<link rel="stylesheet" href="./style-${i}.css">` -/
def styleLinkTag (i : Nat) : Str :=
  str "<link rel=\"stylesheet\" href=\"./style-" ++ natToStr i ++ str ".css\">"

/-- `<script src="./script-${i}.js" defer></script>` -/
def scriptTagFor (i : Nat) : Str :=
  str "<script src=\"./script-" ++ natToStr i ++ str ".js\" defer></script>"

/-- `styles.map((_, i) => ...).join("\n")` from emit.ts. -/
def styleLinks (styles : List Str) : Str :=
  List.intercalate nl (mapWithIndex (fun i _ => styleLinkTag i) styles)

/-- `scripts.map((_, i) => ...).join("\n")` from emit.ts. -/
def scriptTags (scripts : List Str) : Str :=
  List.intercalate nl (mapWithIndex (fun i _ => scriptTagFor i) scripts)

/-- The favicon `<link>` tag injected by emit.ts. -/
def faviconLink : Str :=
  str "<link rel=\"icon\" type=\"image/x-icon\" href=\"./favicon.ico\">"

/-- The HTML text emit.ts builds before writing: favicon link injection, then
style links into `</head>` (or prepended), then script tags into `</body>`
(or appended). -/
def emitOutputHTML (html : Str) (scripts styles : List Str) : Str :=
  let sLinks := styleLinks styles
  let sTags := scriptTags scripts
  let out1 :=
    if includesStr html (str "</head>") then
      replaceFirst html (str "</head>") (faviconLink ++ nl ++ str "</head>")
    else if includesStr html (str "<head>") then
      replaceFirst html (str "<head>") (str "<head>" ++ nl ++ faviconLink)
    else faviconLink ++ nl ++ html
  let out2 :=
    if sLinks ≠ [] then
      if includesStr out1 (str "</head>") then
        replaceFirst out1 (str "</head>") (sLinks ++ nl ++ str "</head>")
      else sLinks ++ nl ++ out1
    else out1
  let out3 :=
    if sTags ≠ [] then
      if includesStr out2 (str "</body>") then
        replaceFirst out2 (str "</body>") (sTags ++ nl ++ str "</body>")
      else out2 ++ nl ++ sTags
    else out2
  out3

/-- `emit(outDir, html, scripts, styles, entryPath?)` from src/compiler/emit.ts,
acting on the file-system model. `favicon` is the contents of
`path.dirname(entryPath)/favicon.ico` when `entryPath` was passed and that
file exists, else `none` (modelling the `existsSync`/`copyFileSync` pair).
Note the HTML is always written to `outDir/index.html`: emit has no route
parameter. -/
def emit (outDir html : Str) (scripts styles : List Str) (favicon : Option Str)
    (fs : FS) : FS :=
  let fs1 := match favicon with
    | some c => fsWrite fs (pjoin outDir (str "favicon.ico")) c
    | none => fs
  let fs2 := fsWrite fs1 (pjoin outDir (str "index.html"))
    (emitOutputHTML html scripts styles)
  let fs3 := (mapWithIndex
      (fun i c => (pjoin outDir (str "script-" ++ natToStr i ++ str ".js"), c))
      scripts).foldl (fun acc e => fsWrite acc e.1 e.2) fs2
  (mapWithIndex
      (fun i c => (pjoin outDir (str "style-" ++ natToStr i ++ str ".css"), c))
      styles).foldl (fun acc e => fsWrite acc e.1 e.2) fs3

/-! ### `compile` (src/unnamed/part_002, Phase-3 compiler entry) -/

/-- Per-slot script assembly from part_002's `compile` (lines 79–98):
optional text-binding runtime, optional attribute-binding runtime, the user
script, and — only at index 0 — the event runtime. -/
def assembleScript (bindingRuntime attributeBindingRuntime eventRuntime : Str)
    (index : Nat) (s : Str) : Str :=
  let r1 : Str := if bindingRuntime ≠ [] then bindingRuntime ++ nl2 else []
  let r2 : Str :=
    r1 ++ (if attributeBindingRuntime ≠ [] then attributeBindingRuntime ++ nl2 else [])
  let r3 : Str := r2 ++ s
  if eventRuntime ≠ [] ∧ index = 0 then r3 ++ (nl2 ++ eventRuntime) else r3

/-- `scripts.map((s, index) => { ... })` from part_002's `compile`. -/
def scriptsWithRuntime (bindingRuntime attributeBindingRuntime eventRuntime : Str)
    (scripts : List Str) : List Str :=
  mapWithIndex (assembleScript bindingRuntime attributeBindingRuntime eventRuntime)
    scripts

/-- Inputs of one page's compilation, with the stages that are not part of
this repository's sources (`processComponents`, `generateBindingRuntime`,
`generateAttributeBindingRuntime`) abstracted as their already-computed
outputs: the split html/scripts/styles and the three runtime fragments. -/
structure PageBuild where
  html : Str
  scripts : List Str
  styles : List Str
  bindingRuntime : Str
  attributeBindingRuntime : Str
  eventRuntime : Str
  favicon : Option Str

/-- `compile(entry, outDir)` from part_002: delete the output root if it
exists (`rmSync` recursive; deleting a missing directory is the identity in
the model, matching the `existsSync` guard), assemble the scripts, and emit. -/
def compile (outDir : Str) (p : PageBuild) (fs : FS) : FS :=
  emit outDir p.html
    (scriptsWithRuntime p.bindingRuntime p.attributeBindingRuntime p.eventRuntime
      p.scripts)
    p.styles p.favicon (rmrf outDir fs)

/-- C5: script assembly order. With non-empty text-binding, attribute-binding
and event runtimes, slot `i` of the assembled scripts is exactly the
text-binding runtime, then the attribute-binding runtime, then slot `i`'s
user script, and — only for the first slot — the event-dispatch runtime
appended after the user script; every other slot gets no event runtime. -/
theorem scriptsWithRuntime_order (b a e : Str) (scripts : List Str) (i : Nat)
    (s : Str) (hb : b ≠ []) (ha : a ≠ []) (he : e ≠ [])
    (hs : scripts.get? i = some s) :
    (scriptsWithRuntime b a e scripts).get? i =
      some (b ++ nl2 ++ (a ++ nl2) ++ s ++
        (if i = 0 then nl2 ++ e else [])) := by
  rw [scriptsWithRuntime, mapWithIndex_get?, hs, Option.map_some']
  by_cases hi : i = 0
  · simp [assembleScript, hb, ha, he, hi]
  · simp [assembleScript, hb, ha, he, hi]

/-- Witness for C5 on a page with two script slots: the first slot carries
the event runtime after the user script, the second does not. -/
theorem scriptsWithRuntime_order_witness :
    (scriptsWithRuntime (str "T") (str "A") (str "E")
        [str "u1", str "u2"]).get? 0 =
      some (str "T" ++ nl2 ++ (str "A" ++ nl2) ++ str "u1" ++
        (if 0 = 0 then nl2 ++ str "E" else []))
  ∧ (scriptsWithRuntime (str "T") (str "A") (str "E")
        [str "u1", str "u2"]).get? 1 =
      some (str "T" ++ nl2 ++ (str "A" ++ nl2) ++ str "u2" ++
        (if 1 = 0 then nl2 ++ str "E" else [])) :=
  ⟨scriptsWithRuntime_order (str "T") (str "A") (str "E") [str "u1", str "u2"]
      0 (str "u1") (by decide) (by decide) (by decide) (by decide),
    scriptsWithRuntime_order (str "T") (str "A") (str "E") [str "u1", str "u2"]
      1 (str "u2") (by decide) (by decide) (by decide) (by decide)⟩

/-! ### C2: emit.ts has no route parameter and always writes `index.html` -/

/-- C2 (code bug): evaluating emit.ts at a non-root page. The function has no
route parameter; compiling the `/about` page writes its HTML to
`dist/index.html` — the full output text is shown — and writes no
`dist/about.html`, contradicting the route-derived output paths the spec
(and the repository's own design document) require. -/
theorem emit_always_writes_index_html :
    fsLookup (emit (str "dist") (str "<h1>About</h1>") [str "var a = 1"] [] none [])
        (str "dist/index.html") =
      some (faviconLink ++ nl ++ str "<h1>About</h1>" ++ nl ++ scriptTagFor 0)
  ∧ fsLookup (emit (str "dist") (str "<h1>About</h1>") [str "var a = 1"] [] none [])
        (str "dist/about.html") = none := by
  constructor
  · decide
  · decide

/-! ### C1: the build/serve round trip fails on the shipped emit -/

/-- The home page, as the abstracted inputs to `compile`. -/
def homePage : PageBuild :=
  { html := str "<h1>Home</h1>", scripts := [], styles := [],
    bindingRuntime := [], attributeBindingRuntime := [], eventRuntime := [],
    favicon := none }

/-- The about page, as the abstracted inputs to `compile`. -/
def aboutPage : PageBuild :=
  { html := str "<h1>About</h1>", scripts := [], styles := [],
    bindingRuntime := [], attributeBindingRuntime := [], eventRuntime := [],
    favicon := none }

/-- The output tree after compiling `index.zen` then `about.zen` into the
served output root. -/
def builtTree : FS := compile distRoot aboutPage (compile distRoot homePage [])

/-- C1 (code bug): `index.zen` and `about.zen` derive the distinct patterns
`/` and `/about` (no collision), yet after compiling both, resolving `/`
returns the root `index.html` whose contents are the about page's HTML —
not the HTML that was emitted for `index.zen` (shown as it stood right
after that page's emit) — and `about.html` was never produced, because
emit.ts writes every page to `index.html`. -/
theorem roundtrip_fails :
    (filePathToRoute (str "index.zen") = str "/"
      ∧ filePathToRoute (str "about.zen") = str "/about")
  ∧ fsLookup builtTree (resolve (str "/") (fun p => fsExists builtTree p)) =
      some (faviconLink ++ nl ++ str "<h1>About</h1>")
  ∧ fsLookup (compile distRoot homePage []) (pjoin distRoot (str "index.html")) =
      some (faviconLink ++ nl ++ str "<h1>Home</h1>")
  ∧ faviconLink ++ nl ++ str "<h1>About</h1>" ≠ faviconLink ++ nl ++ str "<h1>Home</h1>"
  ∧ fsExists builtTree (pjoin distRoot (str "about.html")) = false := by
  refine ⟨by decide, ?_, by decide, by decide, by decide⟩
  decide

/-! ### C6: compile clears the output root on every call, not once per batch -/

/-- A page with one script, to leave an artifact behind. -/
def pageWithScript : PageBuild :=
  { html := str "<p>B</p>", scripts := [str "var b = 1"], styles := [],
    bindingRuntime := [], attributeBindingRuntime := [], eventRuntime := [],
    favicon := none }

/-- A page with no scripts. -/
def pageNoScript : PageBuild :=
  { html := str "<p>A</p>", scripts := [], styles := [],
    bindingRuntime := [], attributeBindingRuntime := [], eventRuntime := [],
    favicon := none }

/-- C6 counterexample: compiling page B emits `dist/script-0.js`; compiling
page A afterwards into the same output root deletes it (part_002's `compile`
runs `fs.rmSync(outDir, {recursive: true})` at the start of every call), so
compiling one page does destructively clear the output root and page B's
artifact does not survive page A's compile. -/
theorem compile_clears_counterexample :
    fsLookup (compile (str "dist") pageWithScript []) (str "dist/script-0.js") =
      some (str "var b = 1")
  ∧ fsLookup (compile (str "dist") pageNoScript
        (compile (str "dist") pageWithScript [])) (str "dist/script-0.js") = none := by
  constructor
  · decide
  · decide

/-- The paths emit writes, in the model: the optional favicon copy, the HTML
file, and the per-index script and style side-files. -/
def emitWritePaths (outDir : Str) (scripts styles : List Str)
    (favicon : Option Str) : List Str :=
  (match favicon with
    | some _ => [pjoin outDir (str "favicon.ico")]
    | none => []) ++
  [pjoin outDir (str "index.html")] ++
  mapWithIndex (fun i _ => pjoin outDir (str "script-" ++ natToStr i ++ str ".js"))
    scripts ++
  mapWithIndex (fun i _ => pjoin outDir (str "style-" ++ natToStr i ++ str ".css"))
    styles

/-- The paths one `compile` call writes. -/
def compileWritePaths (outDir : Str) (p : PageBuild) : List Str :=
  emitWritePaths outDir
    (scriptsWithRuntime p.bindingRuntime p.attributeBindingRuntime p.eventRuntime
      p.scripts)
    p.styles p.favicon

theorem fsLookup_fsWrite (fs : FS) (p c q : Str) :
    fsLookup (fsWrite fs p c) q = if p = q then some c else fsLookup fs q := rfl

theorem fsLookup_foldl_writes (entries : List (Str × Str)) (fs : FS) (q : Str)
    (h : ∀ e ∈ entries, e.1 ≠ q) :
    fsLookup (entries.foldl (fun acc e => fsWrite acc e.1 e.2) fs) q =
      fsLookup fs q := by
  induction entries generalizing fs with
  | nil => rfl
  | cons e rest ih =>
    simp only [List.foldl_cons]
    rw [ih _ (fun x hx => h x (List.mem_cons_of_mem e hx))]
    rw [fsLookup_fsWrite, if_neg (h e (List.mem_cons_self e rest))]

theorem mapWithIndexFrom_pair_fst (g : Nat → Str) (l : List Str) (st : Nat) :
    (mapWithIndexFrom (fun i c => (g i, c)) st l).map Prod.fst =
      mapWithIndexFrom (fun i _ => g i) st l := by
  induction l generalizing st with
  | nil => rfl
  | cons x xs ih => simp only [mapWithIndexFrom, List.map_cons, ih]

theorem fsLookup_emit_not_written (outDir html : Str) (scripts styles : List Str)
    (favicon : Option Str) (fs : FS) (q : Str)
    (h : q ∉ emitWritePaths outDir scripts styles favicon) :
    fsLookup (emit outDir html scripts styles favicon fs) q = fsLookup fs q := by
  simp only [emitWritePaths, List.mem_append, List.mem_singleton] at h
  push_neg at h
  obtain ⟨⟨⟨hfav, hidx⟩, hscr⟩, hsty⟩ := h
  have hscr' : ∀ e ∈ mapWithIndex
      (fun i c => (pjoin outDir (str "script-" ++ natToStr i ++ str ".js"), c))
      scripts, e.1 ≠ q := by
    intro e he hq
    apply hscr
    rw [← hq]
    have := List.mem_map_of_mem Prod.fst he
    rwa [mapWithIndex, mapWithIndexFrom_pair_fst] at this
  have hsty' : ∀ e ∈ mapWithIndex
      (fun i c => (pjoin outDir (str "style-" ++ natToStr i ++ str ".css"), c))
      styles, e.1 ≠ q := by
    intro e he hq
    apply hsty
    rw [← hq]
    have := List.mem_map_of_mem Prod.fst he
    rwa [mapWithIndex, mapWithIndexFrom_pair_fst] at this
  unfold emit
  rw [fsLookup_foldl_writes _ _ _ hsty', fsLookup_foldl_writes _ _ _ hscr']
  rw [fsLookup_fsWrite, if_neg (fun hh => hidx hh.symm)]
  cases favicon with
  | none => rfl
  | some c =>
    simp only [List.mem_singleton] at hfav
    rw [fsLookup_fsWrite, if_neg (fun hh => hfav hh.symm)]

theorem fsLookup_rmrf_under (dir : Str) (fs : FS) (q : Str)
    (h : (dir ++ str "/").isPrefixOf q = true) :
    fsLookup (rmrf dir fs) q = none := by
  induction fs with
  | nil => rfl
  | cons e rest ih =>
    simp only [rmrf, List.filter_cons] at ih ⊢
    cases hp : (e.1 == dir || (dir ++ str "/").isPrefixOf e.1) with
    | true => simpa [hp] using ih
    | false =>
      simp only [hp, Bool.not_false, if_pos]
      have hne : e.1 ≠ q := by
        intro hq
        rw [hq] at hp
        simp only [Bool.or_eq_false_iff] at hp
        rw [h] at hp
        exact Bool.noConfusion hp.2
      simp only [fsLookup, if_neg hne]
      exact ih

/-- C6 as amended: part_002's `compile` destructively clears the output root
at the start of every call — once per page, not once per batch — so after
compiling page A into a root that previously held page B's output, every
path under the root that page A's own emit does not write reads as absent;
in particular page B's artifacts do not survive. -/
theorem compile_clears_per_page (outDir : Str) (pA pB : PageBuild) (fs : FS)
    (q : Str) (hunder : (outDir ++ str "/").isPrefixOf q = true)
    (hnotA : q ∉ compileWritePaths outDir pA) :
    fsLookup (compile outDir pA (compile outDir pB fs)) q = none := by
  unfold compileWritePaths at hnotA
  unfold compile
  rw [fsLookup_emit_not_written _ _ _ _ _ _ _ hnotA]
  exact fsLookup_rmrf_under _ _ _ hunder

/-- Witness for the amended C6: page B's emitted `dist/script-0.js` is gone
after page A's compile into the same root. -/
theorem compile_clears_per_page_witness :
    fsLookup (compile (str "dist") pageNoScript
        (compile (str "dist") pageWithScript [])) (str "dist/script-0.js") = none :=
  compile_clears_per_page (str "dist") pageNoScript pageWithScript []
    (str "dist/script-0.js") (by decide) (by decide)

/-! ### C10: the generated event delegate (src/compiler/event.ts)

The generated runtime's `delegate(event)` walks from `event.target` up the
parent chain looking for a `data-zen-<type>` marker, then calls the global
handler named by the marker's value if it is a function. The DOM is modelled
by the target's inclusive ancestor chain (target first, document-rootwards);
the result is the invoked handler name and matched element, or `none` when
the delegate returns without calling anything. The model is a total
function, so "returns without throwing" holds by construction; in the JS the
null case is safe because of the optional chain `el?.getAttribute`. -/

/-- A DOM element, reduced to its attributes. -/
structure DomElement where
  attrs : List (Str × Str)

/-- DOM `el.hasAttribute(name)`. -/
def hasAttribute (el : DomElement) (name : Str) : Bool :=
  el.attrs.any (fun a => a.1 == name)

/-- DOM `el.getAttribute(name)` (`none` models `null`). -/
def getAttribute (el : DomElement) (name : Str) : Option Str :=
  (el.attrs.find? (fun a => a.1 == name)).map Prod.snd

/-- The attribute name `` `data-zen-${type}` ``. -/
def dataZenAttr (type : Str) : Str := str "data-zen-" ++ type

/-- `while (el && !el.hasAttribute(...)) el = el.parentElement`: the nearest
element of the chain carrying the marker, or `none` when the walk reaches
`null`. -/
def findDelegateTarget (type : Str) : List DomElement → Option DomElement
  | [] => none
  | el :: rest =>
    if hasAttribute el (dataZenAttr type) then some el
    else findDelegateTarget type rest

/-- The `delegate` function of the generated runtime. `isCallable h` models
`typeof window[h] === "function"`; the `handlerName ≠ []` conjunct is the JS
truthiness test on the attribute value. -/
def delegate (type : Str) (chain : List DomElement) (isCallable : Str → Bool) :
    Option (Str × DomElement) :=
  match findDelegateTarget type chain with
  | none => none
  | some el =>
    match getAttribute el (dataZenAttr type) with
    | none => none
    | some handlerName =>
      if handlerName ≠ [] ∧ isCallable handlerName then some (handlerName, el)
      else none

/-- C10: when no element of the target's ancestor chain carries
`data-zen-<type>`, the walk terminates at `null` and the delegate invokes no
handler (and, being total, cannot throw). -/
theorem delegate_noop_on_unmatched (type : Str) (chain : List DomElement)
    (isCallable : Str → Bool)
    (h : ∀ el ∈ chain, hasAttribute el (dataZenAttr type) = false) :
    delegate type chain isCallable = none := by
  have hfind : findDelegateTarget type chain = none := by
    induction chain with
    | nil => rfl
    | cons el rest ih =>
      simp only [findDelegateTarget]
      rw [h el (List.mem_cons_self el rest)]
      simp only [Bool.false_eq_true, if_false]
      exact ih (fun x hx => h x (List.mem_cons_of_mem el hx))
  simp only [delegate, hfind]

/-- Witness for C10: a click dispatched on a two-element chain with no
`data-zen-click` marker anywhere invokes nothing, even though every global
name is callable. -/
theorem delegate_noop_on_unmatched_witness :
    delegate (str "click")
      [⟨[(str "class", str "btn")]⟩, ⟨[(str "data-zen-hover", str "f")]⟩]
      (fun _ => true) = none :=
  delegate_noop_on_unmatched (str "click")
    [⟨[(str "class", str "btn")]⟩, ⟨[(str "data-zen-hover", str "f")]⟩]
    (fun _ => true) (by decide)

/-! ### The parse5 document model (for parseZen, C9, and the rewriter, C7/C8)

A parse5 node is either a text node (`nodeName === "#text"`, carrying
`value`) or an element (`nodeName` = tag, `attrs`, `childNodes`). Children
are a mutually-defined forest so that mutual structural induction is
available. -/

mutual
inductive PNode : Type where
  | text (value : Str) : PNode
  | elem (nodeName : Str) (attrs : List (Str × Str)) (children : PForest) : PNode
inductive PForest : Type where
  | nil : PForest
  | cons (head : PNode) (tail : PForest) : PForest
end

instance (f : PForest) : Decidable (f = PForest.nil) :=
  match f with
  | PForest.nil => isTrue rfl
  | PForest.cons _ _ => isFalse (fun hco => PForest.noConfusion hco)

/-- parse5 `node.nodeName`. -/
def nodeNameOf : PNode → Str
  | .text _ => str "#text"
  | .elem nm _ _ => nm

/-- parse5 `node.childNodes` (a text node has none). -/
def childrenOf : PNode → PForest
  | .text _ => .nil
  | .elem _ _ cs => cs

/-- `extractTextContent` from part_002's parse.ts: the concatenated `value`s
of the `#text` children. -/
def extractTextContent : PForest → Str
  | .nil => []
  | .cons (.text v) f => v ++ extractTextContent f
  | .cons (.elem _ _ _) f => extractTextContent f

/-- `ScriptBlock`/`StyleBlock`: a catalogued fragment with its index. -/
structure ScriptBlock where
  content : Str
  index : Nat
deriving DecidableEq

/-- `ZenFile` as returned by `parseZen`. -/
structure ZenFile where
  html : Str
  scripts : List ScriptBlock
  styles : List ScriptBlock

/-- The mutable state of parse.ts's walk: the two growing lists and the two
auto-incrementing counters. -/
structure ParseState where
  scripts : List ScriptBlock
  styles : List ScriptBlock
  scriptIndex : Nat
  stylesIndex : Nat

mutual
/-- `walk(node)` from parse.ts. A text node's `nodeName` is `#text` and it
has no children, so it changes nothing. -/
def walkNode : PNode → ParseState → ParseState
  | .text _, st => st
  | .elem nm _ cs, st =>
    let st1 :=
      if nm = str "script" ∧ cs ≠ PForest.nil then
        { st with
          scripts := st.scripts ++ [⟨extractTextContent cs, st.scriptIndex⟩],
          scriptIndex := st.scriptIndex + 1 }
      else st
    let st2 :=
      if nm = str "style" ∧ cs ≠ PForest.nil then
        { st1 with
          styles := st1.styles ++ [⟨extractTextContent cs, st1.stylesIndex⟩],
          stylesIndex := st1.stylesIndex + 1 }
      else st1
    walkForest cs st2
/-- `node.childNodes?.forEach(walk)`. -/
def walkForest : PForest → ParseState → ParseState
  | .nil, st => st
  | .cons n rest, st => walkForest rest (walkNode n st)
end

/-- `parseZen` from part_002's parse.ts: `doc` is the parse5 tree of
`source`; the returned `html` is the source text itself. -/
def parseZen (source : Str) (doc : PNode) : ZenFile :=
  let st := walkNode doc ⟨[], [], 0, 0⟩
  { html := source, scripts := st.scripts, styles := st.styles }

/-! Document-order characterization of the walk. -/

mutual
/-- The contents the walk catalogs for `tag`, in document order (the code's
condition: the element is tagged `tag` and has children). -/
def taggedContents (tag : Str) : PNode → List Str
  | .text _ => []
  | .elem nm _ cs =>
    (if nm = tag ∧ cs ≠ PForest.nil then [extractTextContent cs] else []) ++
      taggedContentsF tag cs
def taggedContentsF (tag : Str) : PForest → List Str
  | .nil => []
  | .cons n rest => taggedContents tag n ++ taggedContentsF tag rest
end

/-- Pair each content with its dense index, counting from `i`. -/
def labelFrom (i : Nat) : List Str → List ScriptBlock
  | [] => []
  | c :: rest => ⟨c, i⟩ :: labelFrom (i + 1) rest

theorem labelFrom_append (xs ys : List Str) :
    ∀ i, labelFrom i (xs ++ ys) = labelFrom i xs ++ labelFrom (i + xs.length) ys := by
  induction xs with
  | nil => intro i; simp [labelFrom]
  | cons x rest ih =>
    intro i
    simp only [List.cons_append, labelFrom, List.length_cons, List.append_eq]
    rw [show i + (rest.length + 1) = i + 1 + rest.length from by omega]
    rw [← ih (i + 1)]

theorem labelFrom_map_content (l : List Str) :
    ∀ i, (labelFrom i l).map ScriptBlock.content = l := by
  induction l with
  | nil => intro i; rfl
  | cons c rest ih => intro i; simp [labelFrom, ih]

theorem labelFrom_map_index (l : List Str) :
    ∀ i, (labelFrom i l).map ScriptBlock.index = List.range' i l.length := by
  induction l with
  | nil => intro i; rfl
  | cons c rest ih => intro i; simp [labelFrom, ih, List.range']

theorem script_ne_style : str "script" ≠ str "style" := by decide

mutual
theorem walkNode_eq : ∀ (n : PNode) (st : ParseState),
    walkNode n st =
      { scripts := st.scripts ++ labelFrom st.scriptIndex (taggedContents (str "script") n),
        styles := st.styles ++ labelFrom st.stylesIndex (taggedContents (str "style") n),
        scriptIndex := st.scriptIndex + (taggedContents (str "script") n).length,
        stylesIndex := st.stylesIndex + (taggedContents (str "style") n).length }
  | PNode.text v, st => by simp [walkNode, taggedContents, labelFrom]
  | PNode.elem nm attrs cs, st => by
    by_cases hsc : nm = str "script" ∧ cs ≠ PForest.nil
    · have hst : ¬(nm = str "style" ∧ cs ≠ PForest.nil) := by
        intro hco
        exact script_ne_style (hsc.1 ▸ hco.1)
      simp only [walkNode, if_pos hsc, if_neg hst]
      rw [walkForest_eq cs]
      simp only [taggedContents, if_pos hsc, if_neg hst, List.nil_append,
        List.singleton_append, labelFrom, List.length_cons, ParseState.mk.injEq]
      refine ⟨?_, ?_, ?_, ?_⟩
      · simp [List.append_assoc]
      · trivial
      · omega
      · trivial
    · by_cases hst : nm = str "style" ∧ cs ≠ PForest.nil
      · simp only [walkNode, if_pos hst, if_neg hsc]
        rw [walkForest_eq cs]
        simp only [taggedContents, if_pos hst, if_neg hsc, List.nil_append,
          List.singleton_append, labelFrom, List.length_cons, ParseState.mk.injEq]
        refine ⟨?_, ?_, ?_, ?_⟩
        · trivial
        · simp [List.append_assoc]
        · trivial
        · omega
      · simp only [walkNode, if_neg hsc, if_neg hst]
        rw [walkForest_eq cs]
        simp only [taggedContents, if_neg hsc, if_neg hst, List.nil_append]
theorem walkForest_eq : ∀ (f : PForest) (st : ParseState),
    walkForest f st =
      { scripts := st.scripts ++ labelFrom st.scriptIndex (taggedContentsF (str "script") f),
        styles := st.styles ++ labelFrom st.stylesIndex (taggedContentsF (str "style") f),
        scriptIndex := st.scriptIndex + (taggedContentsF (str "script") f).length,
        stylesIndex := st.stylesIndex + (taggedContentsF (str "style") f).length }
  | PForest.nil, st => by simp [walkForest, taggedContentsF, labelFrom]
  | PForest.cons n rest, st => by
    simp only [walkForest]
    rw [walkNode_eq n st, walkForest_eq rest]
    simp only [taggedContentsF, labelFrom_append, List.length_append,
      ParseState.mk.injEq]
    refine ⟨?_, ?_, ?_, ?_⟩
    · simp [List.append_assoc]
    · simp [List.append_assoc]
    · omega
    · omega
end

/-! The claim speaks of elements with non-empty *content*; parse.ts pushes on
non-empty *childNodes*. On parse5 output the two agree, because script/style
content is raw text: their children are text nodes with non-empty values.
`wfNode` states exactly that agreement, and is the hypothesis of C9. -/

mutual
/-- Every script/style element with children has non-empty text content. -/
def wfNode : PNode → Bool
  | .text _ => true
  | .elem nm _ cs =>
    (if (nm = str "script" ∨ nm = str "style") ∧ cs ≠ PForest.nil then
      decide (extractTextContent cs ≠ []) else true) && wfForest cs
def wfForest : PForest → Bool
  | .nil => true
  | .cons n rest => wfNode n && wfForest rest
end

mutual
/-- The spec-side catalog, following the claim's words: the contents of every
element tagged `tag` whose content is non-empty, in document order. -/
def specTagged (tag : Str) : PNode → List Str
  | .text _ => []
  | .elem nm _ cs =>
    (if nm = tag ∧ extractTextContent cs ≠ [] then [extractTextContent cs] else []) ++
      specTaggedF tag cs
def specTaggedF (tag : Str) : PForest → List Str
  | .nil => []
  | .cons n rest => specTagged tag n ++ specTaggedF tag rest
end

theorem extractTextContent_nil : extractTextContent PForest.nil = [] := rfl

mutual
theorem taggedContents_eq_spec : ∀ (n : PNode), wfNode n = true →
    (taggedContents (str "script") n = specTagged (str "script") n
      ∧ taggedContents (str "style") n = specTagged (str "style") n)
  | PNode.text v, _ => ⟨rfl, rfl⟩
  | PNode.elem nm attrs cs, h => by
    simp only [wfNode, Bool.and_eq_true] at h
    obtain ⟨hcond, hforest⟩ := h
    have hrest := taggedContentsF_eq_spec cs hforest
    have key : ∀ tag : Str, (nm = str "script" ∨ nm = str "style") → tag = nm →
        (nm = tag ∧ cs ≠ PForest.nil ↔ nm = tag ∧ extractTextContent cs ≠ []) := by
      intro tag htag _
      constructor
      · intro hc
        refine ⟨hc.1, ?_⟩
        rw [if_pos ⟨htag, hc.2⟩] at hcond
        exact of_decide_eq_true hcond
      · intro hc
        refine ⟨hc.1, ?_⟩
        intro hnil
        rw [hnil] at hc
        exact hc.2 extractTextContent_nil
    constructor
    · simp only [taggedContents, specTagged, hrest.1]
      by_cases hs : nm = str "script"
      · rw [if_congr (key (str "script") (Or.inl hs) hs.symm) rfl rfl]
      · rw [if_neg (fun hc => hs hc.1), if_neg (fun hc => hs hc.1)]
    · simp only [taggedContents, specTagged, hrest.2]
      by_cases hs : nm = str "style"
      · rw [if_congr (key (str "style") (Or.inr hs) hs.symm) rfl rfl]
      · rw [if_neg (fun hc => hs hc.1), if_neg (fun hc => hs hc.1)]
theorem taggedContentsF_eq_spec : ∀ (f : PForest), wfForest f = true →
    (taggedContentsF (str "script") f = specTaggedF (str "script") f
      ∧ taggedContentsF (str "style") f = specTaggedF (str "style") f)
  | PForest.nil, _ => ⟨rfl, rfl⟩
  | PForest.cons n rest, h => by
    simp only [wfForest, Bool.and_eq_true] at h
    have hn := taggedContents_eq_spec n h.1
    have hr := taggedContentsF_eq_spec rest h.2
    exact ⟨by simp only [taggedContentsF, specTaggedF, hn.1, hr.1],
      by simp only [taggedContentsF, specTaggedF, hn.2, hr.2]⟩
end

/-- C9: `parseZen` catalogs without mutating. On any well-formed parse5 tree
(`wfNode`: script/style children are non-empty exactly when the text content
is), the returned `rawMarkup` is the unmodified source text, and the script
and style lists hold exactly the non-empty-content script/style elements in
document order, their contents unchanged, with dense auto-incremented
indices 0, 1, 2, …. -/
theorem parseZen_catalogs (source : Str) (doc : PNode) (hwf : wfNode doc = true) :
    (parseZen source doc).html = source
  ∧ (parseZen source doc).scripts.map ScriptBlock.content =
      specTagged (str "script") doc
  ∧ (parseZen source doc).scripts.map ScriptBlock.index =
      List.range (specTagged (str "script") doc).length
  ∧ (parseZen source doc).styles.map ScriptBlock.content =
      specTagged (str "style") doc
  ∧ (parseZen source doc).styles.map ScriptBlock.index =
      List.range (specTagged (str "style") doc).length := by
  have hspec := taggedContents_eq_spec doc hwf
  have hwalk := walkNode_eq doc ⟨[], [], 0, 0⟩
  refine ⟨rfl, ?_, ?_, ?_, ?_⟩ <;>
    simp only [parseZen, hwalk, List.nil_append, hspec.1.symm, hspec.2.symm,
      labelFrom_map_content, labelFrom_map_index, List.range_eq_range']

/-- A sample well-formed document: `<html><script>var x</script>
<style>p{color:red}</style><script></script></html>` as a parse5 tree (the
last script has no children and is skipped). -/
def sampleDoc : PNode :=
  PNode.elem (str "html") []
    (PForest.cons
      (PNode.elem (str "script") []
        (PForest.cons (PNode.text (str "var x")) PForest.nil))
      (PForest.cons
        (PNode.elem (str "style") []
          (PForest.cons (PNode.text (str "p\x7bcolor:red\x7d")) PForest.nil))
        (PForest.cons (PNode.elem (str "script") [] PForest.nil) PForest.nil)))

/-- Witness for C9 on `sampleDoc`. -/
theorem parseZen_catalogs_witness :
    (parseZen (str "<html>src</html>") sampleDoc).html = str "<html>src</html>"
  ∧ (parseZen (str "<html>src</html>") sampleDoc).scripts.map ScriptBlock.content =
      specTagged (str "script") sampleDoc
  ∧ (parseZen (str "<html>src</html>") sampleDoc).scripts.map ScriptBlock.index =
      List.range (specTagged (str "script") sampleDoc).length
  ∧ (parseZen (str "<html>src</html>") sampleDoc).styles.map ScriptBlock.content =
      specTagged (str "style") sampleDoc
  ∧ (parseZen (str "<html>src</html>") sampleDoc).styles.map ScriptBlock.index =
      List.range (specTagged (str "style") sampleDoc).length :=
  parseZen_catalogs (str "<html>src</html>") sampleDoc (by decide)

/-! ### C8/C7: the event-attribute rewriter (part_001, `transformEventAttributes`
and `splitZen`) -/

/-- One step of `node.attrs.map(...)` in transformEventAttributes: the
rewritten attribute, plus the event type passed to `eventTypes.add`, if any.
`attrName = attr.name.toLowerCase()`; the rewrite fires when
`attrName.startsWith('on') && attrName.length > 2`. -/
def transformAttr (attr : Str × Str) : (Str × Str) × Option Str :=
  let attrName := strToLower attr.1
  if startsWith attrName (str "on") = true ∧ 2 < attrName.length then
    let eventType := attrName.drop 2
    ((str "data-zen-" ++ eventType, attr.2), some eventType)
  else (attr, none)

/-- JS `Set.prototype.add` on the insertion-ordered model of a `Set`. -/
def addEventType (s : List Str) (k : Str) : List Str :=
  if k ∈ s then s else s ++ [k]

/-- The `attrs.map` of transformEventAttributes, threading the shared
`eventTypes` set left to right. -/
def transformAttrs : List (Str × Str) → List Str → List (Str × Str) × List Str
  | [], s => ([], s)
  | a :: rest, s =>
    let r := transformAttr a
    let s1 := match r.2 with
      | some k => addEventType s k
      | none => s
    let p := transformAttrs rest s1
    (r.1 :: p.1, p.2)

mutual
/-- `walk(node)` from transformEventAttributes: rewrite this node's
attributes, then recurse into the children, threading the set. -/
def transformNode : PNode → List Str → PNode × List Str
  | .text v, s => (.text v, s)
  | .elem nm attrs cs, s =>
    let pa := transformAttrs attrs s
    let pf := transformForest cs pa.2
    (.elem nm pa.1 pf.1, pf.2)
/-- `node.childNodes.forEach(walk)`. -/
def transformForest : PForest → List Str → PForest × List Str
  | .nil, s => (.nil, s)
  | .cons n rest, s =>
    let pn := transformNode n s
    let pf := transformForest rest pn.2
    (.cons pn.1 pf.1, pf.2)
end

/-- `transformEventAttributes` on the parsed tree: the rewritten document and
the collected event-type set (insertion-ordered). -/
def transformEventAttributes (doc : PNode) : PNode × List Str :=
  transformNode doc []

/-- Spec-side per-attribute rule, following the claim's words: an attribute
whose name matches `on<word>` case-insensitively, with total length greater
than 2, becomes `data-zen-<word>` (word lower-cased) with the same value;
anything else passes through unchanged. -/
def specRewriteAttr (attr : Str × Str) : Str × Str :=
  if startsWith (strToLower attr.1) (str "on") = true ∧ 2 < attr.1.length then
    (str "data-zen-" ++ (strToLower attr.1).drop 2, attr.2)
  else attr

/-- Spec-side event kind of one attribute: the lower-cased `<word>` when the
attribute matches, nothing otherwise. -/
def specKindAttr (attr : Str × Str) : List Str :=
  if startsWith (strToLower attr.1) (str "on") = true ∧ 2 < attr.1.length then
    [(strToLower attr.1).drop 2]
  else []

mutual
/-- Spec-side rewrite of a whole tree: shape preserved, every attribute
rewritten by `specRewriteAttr`. -/
def specRewriteNode : PNode → PNode
  | .text v => .text v
  | .elem nm attrs cs => .elem nm (attrs.map specRewriteAttr) (specRewriteForest cs)
def specRewriteForest : PForest → PForest
  | .nil => .nil
  | .cons n rest => .cons (specRewriteNode n) (specRewriteForest rest)
end

mutual
/-- All event kinds contributed by a tree, in walk order (with repetitions). -/
def specKindsNode : PNode → List Str
  | .text _ => []
  | .elem _ attrs cs => attrs.flatMap specKindAttr ++ specKindsForest cs
def specKindsForest : PForest → List Str
  | .nil => []
  | .cons n rest => specKindsNode n ++ specKindsForest rest
end

theorem transformAttr_matches_spec (a : Str × Str) :
    (transformAttr a).1 = specRewriteAttr a
  ∧ (transformAttr a).2.toList = specKindAttr a := by
  have hlen : (strToLower a.1).length = a.1.length := List.length_map a.1 Char.toLower
  constructor
  · simp only [transformAttr, specRewriteAttr, hlen]
    split <;> rfl
  · simp only [transformAttr, specKindAttr, hlen]
    split <;> rfl

theorem mem_addEventType (s : List Str) (k k' : Str) :
    k ∈ addEventType s k' ↔ k ∈ s ∨ k = k' := by
  unfold addEventType
  by_cases h : k' ∈ s
  · rw [if_pos h]
    constructor
    · exact Or.inl
    · intro hc
      cases hc with
      | inl hk => exact hk
      | inr hk => exact hk ▸ h
  · rw [if_neg h]
    simp [List.mem_append]

theorem nodup_addEventType (s : List Str) (k : Str) (h : s.Nodup) :
    (addEventType s k).Nodup := by
  unfold addEventType
  by_cases hk : k ∈ s
  · rwa [if_pos hk]
  · rw [if_neg hk, List.nodup_append]
    exact ⟨h, List.nodup_singleton k, by
      intro a ha hmem
      rw [List.mem_singleton] at hmem
      exact hk (hmem ▸ ha)⟩

theorem transformAttrs_spec :
    ∀ (attrs : List (Str × Str)) (s : List Str),
      (transformAttrs attrs s).1 = attrs.map specRewriteAttr
    ∧ (∀ k, k ∈ (transformAttrs attrs s).2 ↔
        k ∈ s ∨ k ∈ attrs.flatMap specKindAttr) := by
  intro attrs
  induction attrs with
  | nil =>
    intro s
    exact ⟨rfl, fun k => by simp [transformAttrs]⟩
  | cons a rest ih =>
    intro s
    have ha := transformAttr_matches_spec a
    constructor
    · simp only [transformAttrs, List.map_cons, (ih _).1, ha.1]
    · intro k
      simp only [transformAttrs, (ih _).2 k, List.flatMap_cons, List.mem_append]
      cases hr : (transformAttr a).2 with
      | none =>
        have : specKindAttr a = [] := by rw [← ha.2, hr]; rfl
        simp [this]
      | some k' =>
        have : specKindAttr a = [k'] := by rw [← ha.2, hr]; rfl
        simp only [this, mem_addEventType, List.mem_singleton]
        tauto

theorem transformAttrs_nodup :
    ∀ (attrs : List (Str × Str)) (s : List Str), s.Nodup →
      (transformAttrs attrs s).2.Nodup := by
  intro attrs
  induction attrs with
  | nil => intro s h; exact h
  | cons a rest ih =>
    intro s h
    simp only [transformAttrs]
    apply ih
    cases hr : (transformAttr a).2 with
    | none => simpa [hr] using h
    | some k' => simpa [hr] using nodup_addEventType s k' h

mutual
theorem transformNode_spec : ∀ (n : PNode) (s : List Str),
    (transformNode n s).1 = specRewriteNode n
  ∧ (∀ k, k ∈ (transformNode n s).2 ↔ k ∈ s ∨ k ∈ specKindsNode n)
  | PNode.text v, s => ⟨rfl, fun k => by simp [transformNode, specKindsNode]⟩
  | PNode.elem nm attrs cs, s => by
    have hattrs := transformAttrs_spec attrs s
    have hforest := transformForest_spec cs (transformAttrs attrs s).2
    constructor
    · simp only [transformNode, specRewriteNode, hattrs.1, hforest.1]
    · intro k
      simp only [transformNode, specKindsNode, hforest.2 k, hattrs.2 k,
        List.mem_append]
      tauto
theorem transformForest_spec : ∀ (f : PForest) (s : List Str),
    (transformForest f s).1 = specRewriteForest f
  ∧ (∀ k, k ∈ (transformForest f s).2 ↔ k ∈ s ∨ k ∈ specKindsForest f)
  | PForest.nil, s => ⟨rfl, fun k => by simp [transformForest, specKindsForest]⟩
  | PForest.cons n rest, s => by
    have hn := transformNode_spec n s
    have hr := transformForest_spec rest (transformNode n s).2
    constructor
    · simp only [transformForest, specRewriteForest, hn.1, hr.1]
    · intro k
      simp only [transformForest, specKindsForest, hr.2 k, hn.2 k,
        List.mem_append]
      tauto
end

mutual
theorem transformNode_nodup : ∀ (n : PNode) (s : List Str), s.Nodup →
    (transformNode n s).2.Nodup
  | PNode.text v, s, h => h
  | PNode.elem nm attrs cs, s, h => by
    simp only [transformNode]
    exact transformForest_nodup cs _ (transformAttrs_nodup attrs s h)
theorem transformForest_nodup : ∀ (f : PForest) (s : List Str), s.Nodup →
    (transformForest f s).2.Nodup
  | PForest.nil, s, h => h
  | PForest.cons n rest, s, h => by
    simp only [transformForest]
    exact transformForest_nodup rest _ (transformNode_nodup n s h)
end

/-- C8: event-attribute rewrite. The rewritten document equals the spec-side
pure rewrite — every `on<word>` attribute (case-insensitive, length > 2)
becomes `data-zen-<word>` with the same value, every other attribute passes
through unchanged, and the tree shape is untouched — and the collected set
contains exactly the lower-cased `<word>`s of the matching attributes. -/
theorem transformEventAttributes_correct (doc : PNode) :
    (transformEventAttributes doc).1 = specRewriteNode doc
  ∧ (∀ k, k ∈ (transformEventAttributes doc).2 ↔ k ∈ specKindsNode doc) := by
  have h := transformNode_spec doc []
  exact ⟨h.1, fun k => by simpa using h.2 k⟩

/-- The `eventTypes` field of part_001's `splitZen`:
`Array.from(eventTypes).sort()` over the set collected by the rewriter. -/
def splitZenEventTypes (doc : PNode) : List Str :=
  List.insertionSort (· ≤ ·) (transformEventAttributes doc).2

/-- C7: for every input document — whatever the order, casing or repetition
of its `on<word>` attributes — the `eventKinds` sequence `splitZen` returns
is sorted and duplicate-free. -/
theorem splitZenEventTypes_sorted_nodup (doc : PNode) :
    List.Sorted (· ≤ ·) (splitZenEventTypes doc) ∧ (splitZenEventTypes doc).Nodup := by
  constructor
  · exact List.sorted_insertionSort (· ≤ ·) _
  · have hperm := List.perm_insertionSort (· ≤ ·) (transformEventAttributes doc).2
    have hnodup : (transformEventAttributes doc).2.Nodup :=
      transformNode_nodup doc [] List.nodup_nil
    exact (hperm.nodup_iff).mpr hnodup

end Zenith
